import Mathlib

/-
Verification development for the mathillu renderer.

Floating-point (`f64`/`f32`) arithmetic in the Rust source is modelled
exactly over `ℚ` (for the pixel/coordinate/color pipeline, which uses only
field operations, comparisons, floor-casts and remainders) and over `ℝ`
(for the parts that use `exp`/`ln`).  Machine integers (`u8`, `u32`,
`usize`) are modelled as `ℕ`; the saturating-truncating float-to-integer
`as` casts of Rust are modelled explicitly.
-/

namespace Mathillu

/-- RGBA color with byte channels, modelling `image::Rgba<u8>`. -/
structure Rgba where
  r : ℕ
  g : ℕ
  b : ℕ
  a : ℕ
deriving DecidableEq

/-- Rust float-to-`u8` `as` cast: truncate toward zero, then saturate into
`[0, 255]`.  For nonnegative inputs this is `min 255 ⌊x⌋`; for negative
inputs both the Rust cast and `Int.toNat ∘ floor` give `0`. -/
def toU8 (x : ℚ) : ℕ := min 255 (Int.toNat ⌊x⌋)

/-- From `src/hsv_to_rgb.rs`, `hsv_to_rgb`.  `(h / 60.0) as usize` is the
saturating truncation modelled by `Int.toNat ∘ floor` (this program only
calls it with `h ≥ 0`, where truncation equals floor); `h % 60.0` is the
Rust float remainder, which for `h ≥ 0` equals `h - 60*⌊h/60⌋`. -/
def hsv_to_rgb (h : ℚ) (s v : ℕ) : Rgba :=
  let hi := Int.toNat ⌊h / 60⌋ % 6
  let f := (h - 60 * (⌊h / 60⌋ : ℚ)) / 60
  let p := toU8 ((v : ℚ) * (255 - (s : ℚ)) / 255)
  let q := toU8 ((v : ℚ) * (255 - (s : ℚ) * f) / 255)
  let t := toU8 ((v : ℚ) * (255 - (s : ℚ) * (1 - f)) / 255)
  match hi with
  | 0 => ⟨v, t, p, 255⟩
  | 1 => ⟨q, v, p, 255⟩
  | 2 => ⟨p, v, t, 255⟩
  | 3 => ⟨p, q, v, 255⟩
  | 4 => ⟨t, p, v, 255⟩
  | _ => ⟨v, p, q, 255⟩

/-- Opaque black, the `Rgba([0, 0, 0, 255])` of the source. -/
def black : Rgba := ⟨0, 0, 0, 255⟩

/-- The escape-time loop of `calc_mandelbrot` (`src/generate_mandelbrot.rs`).
`fuel` is `max_iterations - iteration`, so `fuel = 0` is exactly the
`iteration < max_iterations` exit; otherwise the `x0*x0 + y0*y0 <= 4.0`
guard is tested and one `z ↦ z² + c` step is taken. -/
def calcGo (cx cy : ℚ) : ℕ → ℚ → ℚ → ℕ → ℕ
  | 0, _, _, iteration => iteration
  | fuel + 1, x0, y0, iteration =>
    if x0 * x0 + y0 * y0 ≤ 4 then
      calcGo cx cy fuel (x0 * x0 - y0 * y0 + cx) (2 * x0 * y0 + cy) (iteration + 1)
    else
      iteration

/-- From `src/generate_mandelbrot.rs`, `calc_mandelbrot`: iterate
`z ← z² + c` from `z = 0`, counting iterations while `|z|² ≤ 4` and the
count is below `max_iterations`; return the count. -/
def calc_mandelbrot (cx cy : ℚ) (max_iterations : ℕ) : ℕ :=
  calcGo cx cy max_iterations 0 0 0

/-- Base center constants of `src/generate_mandelbrot.rs`. -/
def BASE_CENTER_X : ℚ := 0

/-- Base center constant `BASE_CENTER_Y`. -/
def BASE_CENTER_Y : ℚ := 0

/-- `zoom_factor` of `coordinate_mapper`: `1/zoom` for positive zoom, else
`max |zoom| 0.1`. -/
def zoomFactor (zoom : ℚ) : ℚ := if 0 < zoom then 1 / zoom else max |zoom| (1 / 10)

/-- `base_scale` of `coordinate_mapper` (identical expression in all three
aspect branches of the source): `base_range * zoom_factor` when `zoom ≥ 0`,
else `base_range / zoom_factor`. -/
def baseScale (zoom m_size : ℚ) : ℚ :=
  if 0 ≤ zoom then m_size * zoomFactor zoom else m_size / zoomFactor zoom

/-- `scale_x` of `coordinate_mapper`: wide images extend the base scale by
the aspect ratio, tall and square images use the base scale. -/
def scaleX (width height : ℕ) (zoom m_size : ℚ) : ℚ :=
  if height < width then baseScale zoom m_size * ((width : ℚ) / (height : ℚ))
  else baseScale zoom m_size

/-- `scale_y` of `coordinate_mapper`. -/
def scaleY (width height : ℕ) (zoom m_size : ℚ) : ℚ :=
  if height < width then baseScale zoom m_size
  else if width < height then baseScale zoom m_size * ((height : ℚ) / (width : ℚ))
  else baseScale zoom m_size

/-- `fixed_base_scale` of `coordinate_mapper`: the zoom = 1 base scale,
`base_range * 1.0`. -/
def fixedBaseScale (m_size : ℚ) : ℚ := m_size * 1

/-- `fixed_scale_x` of `coordinate_mapper`. -/
def fixedScaleX (width height : ℕ) (m_size : ℚ) : ℚ :=
  if height < width then fixedBaseScale m_size * ((width : ℚ) / (height : ℚ))
  else fixedBaseScale m_size

/-- `fixed_scale_y` of `coordinate_mapper`. -/
def fixedScaleY (width height : ℕ) (m_size : ℚ) : ℚ :=
  if height < width then fixedBaseScale m_size
  else if width < height then fixedBaseScale m_size * ((height : ℚ) / (width : ℚ))
  else fixedBaseScale m_size

/-- From `src/generate_mandelbrot.rs`, `coordinate_mapper`: map integer
pixel coordinates to complex-plane coordinates.  Center pixel-offsets are
converted to plane units with the fixed (zoom = 1) units-per-pixel, the
normalized pixel position with the current-zoom scale. -/
def coordinate_mapper (x y width height : ℕ) (zoom center_x center_y m_size : ℚ) :
    ℚ × ℚ :=
  let fixed_units_per_pixel_x := fixedScaleX width height m_size / (width : ℚ)
  let fixed_units_per_pixel_y := fixedScaleY width height m_size / (height : ℚ)
  let actual_center_x := (BASE_CENTER_X + center_x) * fixed_units_per_pixel_x
  let actual_center_y := (BASE_CENTER_Y + center_y) * fixed_units_per_pixel_y
  let x_norm := ((x : ℚ) / (width : ℚ)) * 2 - 1
  let y_norm := ((y : ℚ) / (height : ℚ)) * 2 - 1
  (x_norm * (scaleX width height zoom m_size / 2) + actual_center_x,
   y_norm * (scaleY width height zoom m_size / 2) + actual_center_y)

/-- The zoom validation at the top of `generate_mandelbrot`:
`let zoom = if zoom <= 0.0 { 1.0 } else { zoom };`. -/
def mandelEffectiveZoom (zoom : ℚ) : ℚ := if zoom ≤ 0 then 1 else zoom

/-- The iteration-to-color `match` of `generate_mandelbrot`: `0` maps to
black, every other count is banded (`iteration % bands`) and sent through
`hsv_to_rgb` at full saturation and value. -/
def mandelbrotColor (iteration bands : ℕ) : Rgba :=
  if iteration = 0 then black
  else
    let band_index : ℚ := ((iteration % bands : ℕ) : ℚ)
    let hue : ℚ := if 1 < bands then band_index / (((bands - 1 : ℕ)) : ℚ) * 240 else 0
    hsv_to_rgb hue 255 255

/-- `zoom_factor` of `generate_schrodinger` (same expression as the
Mandelbrot one). -/
def schrodingerZoomFactor (zoom : ℚ) : ℚ :=
  if 0 < zoom then 1 / zoom else max |zoom| (1 / 10)

/-- `base_scale` of `generate_schrodinger` (identical in all three aspect
branches): note it is `base_range / zoom_factor` for `zoom ≥ 0`, the
reciprocal convention of the Mandelbrot mapper. -/
def schrodingerBaseScale (zoom m_size : ℚ) : ℚ :=
  if 0 ≤ zoom then m_size / schrodingerZoomFactor zoom
  else m_size * schrodingerZoomFactor zoom

/-- The `(scale_x, scale_y)` computation of `generate_schrodinger`,
including the hard-coded `(800.0, 600.0)` special case for
`(m_size - 2000.0).abs() < 0.1 && width == 800 && height == 600`. -/
def schrodingerScales (width height : ℕ) (zoom m_size : ℚ) : ℚ × ℚ :=
  if |m_size - 2000| < 1 / 10 ∧ width = 800 ∧ height = 600 then (800, 600)
  else if height < width then
    (schrodingerBaseScale zoom m_size * ((width : ℚ) / (height : ℚ)),
     schrodingerBaseScale zoom m_size)
  else if width < height then
    (schrodingerBaseScale zoom m_size,
     schrodingerBaseScale zoom m_size * ((height : ℚ) / (width : ℚ)))
  else
    (schrodingerBaseScale zoom m_size, schrodingerBaseScale zoom m_size)

/-- The per-pixel plane coordinate of `generate_schrodinger`:
`actual_center + (idx - extent/2)/extent * scale` on each axis, with
`actual_center = center * (m_size/2)`. -/
def schrodingerCoord (x y width height : ℕ) (zoom center_x center_y m_size : ℚ) :
    ℚ × ℚ :=
  let actual_center_x := center_x * (m_size / 2)
  let actual_center_y := center_y * (m_size / 2)
  let s := schrodingerScales width height zoom m_size
  (actual_center_x + ((x : ℚ) - (width : ℚ) / 2) / (width : ℚ) * s.1,
   actual_center_y + ((y : ℚ) - (height : ℚ) / 2) / (height : ℚ) * s.2)

/-- Outcome of the `Command::new("ffmpeg").status()` call in
`generate_video` (`src/generate_video.rs`): the spawn itself can fail
(encoder unavailable), or the encoder exits with a success flag. -/
inductive EncodeStatus where
  | launchFailed : EncodeStatus
  | exited : Bool → EncodeStatus
deriving DecidableEq

/-- The frame-cleanup loop of `generate_video`:
`for i in 0..total_frames { remove(frame i) }`, modelled as erasing each
index from the list of frame files on disk. -/
def removeFrames (total : ℕ) (disk : List ℕ) : List ℕ :=
  (List.range total).foldl (fun d i => d.erase i) disk

/-- The post-encode branch of `generate_video`: on encoder success the
cleanup loop runs; on encoder failure or spawn failure the disk is left
untouched. -/
def framesAfterEncode (total : ℕ) (disk : List ℕ) : EncodeStatus → List ℕ
  | .exited true => removeFrames total disk
  | .exited false => disk
  | .launchFailed => disk

/-- Whether the post-encode branch of `generate_video` prints the
`ffmpeg failed to create video` error (only on encoder-reported failure;
spawn failure prints a manual-encoding hint instead). -/
def encodeErrorReported : EncodeStatus → Bool
  | .exited false => true
  | _ => false

noncomputable section RealModel

/-- Linear interpolation `a + (b - a) * t`, the `lerp` of the spec and the
inline interpolation expressions of `generate_video`. -/
def lerp (a b t : ℝ) : ℝ := a + (b - a) * t

/-- The per-frame interpolation parameter of `generate_video`:
`t = i / (total_frames - 1)` when `total_frames > 1`, else `0`. -/
def frameT (total_frames i : ℕ) : ℝ :=
  if 1 < total_frames then (i : ℝ) / (((total_frames - 1 : ℕ)) : ℝ) else 0

/-- The per-frame zoom of `generate_video`: when both endpoint zooms are
strictly positive, `exp` of the linear interpolation of their logs;
otherwise linear interpolation of the raw zooms. -/
def frameZoom (startZoom endZoom t : ℝ) : ℝ :=
  if 0 < startZoom ∧ 0 < endZoom then
    Real.exp (Real.log startZoom + (Real.log endZoom - Real.log startZoom) * t)
  else
    startZoom + (endZoom - startZoom) * t

/-- The `sigma` constant of `generate_schrodinger` (`let sigma = 0.5`). -/
def sigma : ℝ := 0.5

/-- The per-pixel Gaussian probability density of `generate_schrodinger`:
`(-r_squared / (2.0 * sigma * sigma)).exp()` with `r_squared = cx² + cy²`. -/
def gaussianDensity (cx cy : ℝ) : ℝ :=
  Real.exp (-(cx * cx + cy * cy) / (2 * sigma * sigma))

end RealModel

/-! Helper lemmas shared by the claim theorems. -/

/-- The escape-time loop never decreases the iteration counter. -/
theorem calcGo_ge (cx cy : ℚ) (fuel : ℕ) :
    ∀ (x0 y0 : ℚ) (iteration : ℕ), iteration ≤ calcGo cx cy fuel x0 y0 iteration := by
  induction fuel with
  | zero => intro x0 y0 it; simp [calcGo]
  | succ n ih =>
    intro x0 y0 it
    rw [calcGo]
    split_ifs
    · exact le_trans (Nat.le_succ it) (ih _ _ (it + 1))
    · exact le_refl it

/-- The escape-time loop adds at most `fuel` to the iteration counter. -/
theorem calcGo_le (cx cy : ℚ) (fuel : ℕ) :
    ∀ (x0 y0 : ℚ) (iteration : ℕ), calcGo cx cy fuel x0 y0 iteration ≤ iteration + fuel := by
  induction fuel with
  | zero => intro x0 y0 it; simp [calcGo]
  | succ n ih =>
    intro x0 y0 it
    rw [calcGo]
    split_ifs
    · exact le_trans (ih _ _ (it + 1)) (by omega)
    · omega

/-- At `c = 0` the orbit stays at the origin, so the loop spends all its
fuel: `calcGo 0 0 fuel 0 0 it = it + fuel`. -/
theorem calcGo_zero (fuel : ℕ) : ∀ it : ℕ, calcGo 0 0 fuel 0 0 it = it + fuel := by
  induction fuel with
  | zero => intro it; simp [calcGo]
  | succ n ih =>
    intro it
    rw [calcGo, if_pos (by norm_num)]
    norm_num
    rw [ih (it + 1)]
    omega

/-- At full saturation and value, some channel of `hsv_to_rgb` is the raw
value 255 (each arm of the source `match` places `v` directly). -/
theorem hsv_full_channel (h : ℚ) :
    (hsv_to_rgb h 255 255).r = 255 ∨ (hsv_to_rgb h 255 255).g = 255 ∨
      (hsv_to_rgb h 255 255).b = 255 := by
  simp only [hsv_to_rgb]
  generalize Int.toNat ⌊h / 60⌋ % 6 = k
  rcases k with _ | _ | _ | _ | _ | n <;> simp

/-- At full saturation and value, `hsv_to_rgb` is never black. -/
theorem hsv_full_ne_black (h : ℚ) : hsv_to_rgb h 255 255 ≠ black := by
  intro hEq
  rcases hsv_full_channel h with hc | hc | hc <;> rw [hEq] at hc <;>
    simp [black] at hc

/-- Folding `List.erase` of every element of a list over that same list
empties it. -/
theorem foldl_erase_self (l : List ℕ) :
    List.foldl (fun d i => d.erase i) l l = [] := by
  induction l with
  | nil => rfl
  | cons a t ih => simpa only [List.foldl_cons, List.erase_cons_head] using ih

/-! The claims. -/

/-- C1 (counterexample): with an odd width and height (3×3 image,
m_size = 1, center (0,0)), the pixel `(width/2, height/2) = (1,1)` has
nonzero normalized offset, and the mapper sends it to different plane
points under zoom 1 and zoom 2 — the claim's universal statement fails. -/
theorem C1_counterexample :
    coordinate_mapper (3 / 2) (3 / 2) 3 3 1 0 0 1 ≠
      coordinate_mapper (3 / 2) (3 / 2) 3 3 2 0 0 1 := by
  norm_num [coordinate_mapper, scaleX, scaleY, baseScale, zoomFactor,
    fixedScaleX, fixedScaleY, fixedBaseScale, BASE_CENTER_X, BASE_CENTER_Y]

/-- C1 (amended): for every even width > 0 and even height > 0 — exactly
the dimensions for which the integer center pixel `(width/2, height/2)`
has normalized offset 0 — and every m_size > 0, center offsets and two
strictly positive zooms, the mapper sends the center pixel to the same
plane point under both zooms. -/
theorem C1_center_stable_even_dims (width height : ℕ) (hw : width ≠ 0)
    (hh : height ≠ 0) (hwe : width % 2 = 0) (hhe : height % 2 = 0)
    (z1 z2 center_x center_y m_size : ℚ) (hm : 0 < m_size)
    (h1 : 0 < z1) (h2 : 0 < z2) :
    coordinate_mapper (width / 2) (height / 2) width height z1 center_x center_y m_size =
      coordinate_mapper (width / 2) (height / 2) width height z2 center_x center_y m_size := by
  obtain ⟨a, ha⟩ := Nat.even_iff.mpr hwe
  obtain ⟨b, hb⟩ := Nat.even_iff.mpr hhe
  have ha0 : a ≠ 0 := by omega
  have hb0 : b ≠ 0 := by omega
  have hx : ((width / 2 : ℕ) : ℚ) / (width : ℚ) * 2 - 1 = 0 := by
    subst ha
    rw [show (a + a) / 2 = a by omega]
    have haq : ((a : ℚ)) ≠ 0 := Nat.cast_ne_zero.mpr ha0
    push_cast
    field_simp
    ring
  have hy : ((height / 2 : ℕ) : ℚ) / (height : ℚ) * 2 - 1 = 0 := by
    subst hb
    rw [show (b + b) / 2 = b by omega]
    have hbq : ((b : ℚ)) ≠ 0 := Nat.cast_ne_zero.mpr hb0
    push_cast
    field_simp
    ring
  simp only [coordinate_mapper]
  rw [hx, hy]
  norm_num

/-- C1 (witness for the amended theorem): a 2×2 image with zooms 1 and 2. -/
theorem C1_witness :
    coordinate_mapper (2 / 2) (2 / 2) 2 2 1 0 0 1 =
      coordinate_mapper (2 / 2) (2 / 2) 2 2 2 0 0 1 :=
  C1_center_stable_even_dims 2 2 (by norm_num) (by norm_num) (by norm_num)
    (by norm_num) 1 2 0 0 1 (by norm_num) (by norm_num) (by norm_num)

/-- C3 (code evaluation at the failing input): with width = height = 100,
max_iterations = 50, bands = 8, center (0,0), zoom 1, m_size 10, the
center pixel (50,50) maps to the plane origin, the origin reaches the
full 50 iterations, and the color `match` sends count 50 through the
banding arm to RGB (218,255,0) — not black, contrary to the claim and to
the arm's own comment. -/
theorem C3_origin_pixel_colored_by_banding :
    coordinate_mapper 50 50 100 100 1 0 0 10 = (0, 0) ∧
    calc_mandelbrot 0 0 50 = 50 ∧
    mandelbrotColor (calc_mandelbrot 0 0 50) 8 = ⟨218, 255, 0, 255⟩ ∧
    mandelbrotColor (calc_mandelbrot 0 0 50) 8 ≠ black := by
  have hcalc : calc_mandelbrot 0 0 50 = 50 := by
    rw [calc_mandelbrot, calcGo_zero]
  refine ⟨?_, hcalc, ?_, ?_⟩
  · norm_num [coordinate_mapper, scaleX, scaleY, baseScale, zoomFactor,
      fixedScaleX, fixedScaleY, fixedBaseScale, BASE_CENTER_X, BASE_CENTER_Y]
  · rw [hcalc]
    norm_num [mandelbrotColor, hsv_to_rgb, toU8, black] <;> rfl
  · rw [hcalc]
    norm_num [mandelbrotColor, hsv_to_rgb, toU8, black] <;> rfl

/-- C4 (counterexample): the Gaussian/schrodinger path does not clamp
non-positive zoom to 1: at zoom = -2 pixel (0,0) of a 100×100 render with
m_size = 10 samples a different plane point than at zoom = 1, so zoom -2
is not rendered as zoom 1. -/
theorem C4_counterexample :
    schrodingerCoord 0 0 100 100 (-2) 0 0 10 ≠
      schrodingerCoord 0 0 100 100 1 0 0 10 := by
  norm_num [schrodingerCoord, schrodingerScales, schrodingerBaseScale,
    schrodingerZoomFactor]

/-- C4 (amended): only the Mandelbrot path clamps: its effective zoom is 1
whenever the input is ≤ 0 and is always strictly positive, while the
schrodinger path folds non-positive zoom into the scale via
`max |zoom| 0.1` instead, rendering a region different from zoom = 1. -/
theorem C4_zoom_clamp_mandelbrot_only (z : ℚ) :
    (z ≤ 0 → mandelEffectiveZoom z = 1) ∧
    0 < mandelEffectiveZoom z ∧
    schrodingerCoord 0 0 100 100 (-2) 0 0 10 ≠
      schrodingerCoord 0 0 100 100 1 0 0 10 := by
  refine ⟨fun hz => by simp [mandelEffectiveZoom, hz], ?_, ?_⟩
  · rw [mandelEffectiveZoom]
    split_ifs with hcond
    · norm_num
    · linarith [not_le.mp hcond]
  · norm_num [schrodingerCoord, schrodingerScales, schrodingerBaseScale,
      schrodingerZoomFactor]

/-- C4 (witness): the Mandelbrot clamp at zoom = -3. -/
theorem C4_witness :
    mandelEffectiveZoom (-3) = 1 ∧ 0 < mandelEffectiveZoom (-3) :=
  ⟨(C4_zoom_clamp_mandelbrot_only (-3)).1 (by norm_num),
   (C4_zoom_clamp_mandelbrot_only (-3)).2.1⟩

/-- C6: at full saturation and value, the six primary/secondary hues map
exactly to red, yellow, green, cyan, blue and magenta. -/
theorem C6_hsv_primary_hues :
    hsv_to_rgb 0 255 255 = ⟨255, 0, 0, 255⟩ ∧
    hsv_to_rgb 60 255 255 = ⟨255, 255, 0, 255⟩ ∧
    hsv_to_rgb 120 255 255 = ⟨0, 255, 0, 255⟩ ∧
    hsv_to_rgb 180 255 255 = ⟨0, 255, 255, 255⟩ ∧
    hsv_to_rgb 240 255 255 = ⟨0, 0, 255, 255⟩ ∧
    hsv_to_rgb 300 255 255 = ⟨255, 0, 255, 255⟩ := by
  refine ⟨?_, ?_, ?_, ?_, ?_, ?_⟩ <;> (norm_num [hsv_to_rgb, toU8] <;> rfl)

/-- C9: when m_size is within 0.1 of 2000 and the image is exactly
800×600, the schrodinger scales are hard-coded to (800, 600), and the
plane coordinate of every pixel is independent of the zoom parameter. -/
theorem C9_schrodinger_special_case (x y : ℕ)
    (z1 z2 center_x center_y m_size : ℚ) (hm : |m_size - 2000| < 1 / 10) :
    schrodingerScales 800 600 z1 m_size = (800, 600) ∧
    schrodingerCoord x y 800 600 z1 center_x center_y m_size =
      schrodingerCoord x y 800 600 z2 center_x center_y m_size := by
  have hs : ∀ z, schrodingerScales 800 600 z m_size = (800, 600) := fun z => by
    rw [schrodingerScales, if_pos ⟨hm, rfl, rfl⟩]
  exact ⟨hs z1, by simp only [schrodingerCoord, hs]⟩

/-- C9 (witness): m_size = 2000 exactly, zooms 1 and 5, pixel (0,0). -/
theorem C9_witness :
    schrodingerScales 800 600 1 2000 = (800, 600) ∧
    schrodingerCoord 0 0 800 600 1 0 0 2000 =
      schrodingerCoord 0 0 800 600 5 0 0 2000 :=
  C9_schrodinger_special_case 0 0 1 5 0 0 2000 (by norm_num)

/-- C10: the escape-time loop is total (it is structural recursion on the
remaining fuel `max_iterations - iteration`) and the returned count never
exceeds `max_iterations`. -/
theorem C10_iteration_count_bounded (cx cy : ℚ) (max_iterations : ℕ) :
    calc_mandelbrot cx cy max_iterations ≤ max_iterations := by
  simpa [calc_mandelbrot] using calcGo_le cx cy max_iterations 0 0 0

/-- C2: for every frame index below the frame count, with the frame's
interpolation parameter `t`, the sequenced zoom is `exp (lerp (ln start)
(ln end) t)` when both endpoint zooms are positive and the raw linear
interpolation otherwise; at `t = 1/2` between zooms 1 and 4 it is 2
within 1e-10. -/
theorem C2_log_zoom_interpolation (total_frames i : ℕ) (hi : i < total_frames)
    (startZoom endZoom : ℝ) :
    (0 < startZoom → 0 < endZoom →
      frameZoom startZoom endZoom (frameT total_frames i) =
        Real.exp (lerp (Real.log startZoom) (Real.log endZoom)
          (frameT total_frames i))) ∧
    (¬(0 < startZoom ∧ 0 < endZoom) →
      frameZoom startZoom endZoom (frameT total_frames i) =
        startZoom + (endZoom - startZoom) * frameT total_frames i) ∧
    |frameZoom 1 4 (1 / 2) - 2| < 1e-10 := by
  refine ⟨fun hs he => ?_, fun hn => ?_, ?_⟩
  · rw [frameZoom, if_pos ⟨hs, he⟩, lerp]
  · rw [frameZoom, if_neg hn]
  · have h2 : frameZoom 1 4 (1 / 2) = 2 := by
      rw [frameZoom, if_pos ⟨one_pos, by norm_num⟩, Real.log_one,
        show Real.log 4 = 2 * Real.log 2 by
          rw [show (4 : ℝ) = 2 ^ 2 by norm_num, Real.log_pow]; push_cast; ring,
        show (0 : ℝ) + (2 * Real.log 2 - 0) * (1 / 2) = Real.log 2 by ring]
      exact Real.exp_log (by norm_num)
    rw [h2]
    norm_num

/-- C2 (witness): a two-frame sequence, frame 1, zooms 1 → 4. -/
theorem C2_witness :
    frameZoom 1 4 (frameT 2 1) =
      Real.exp (lerp (Real.log 1) (Real.log 4) (frameT 2 1)) ∧
    |frameZoom 1 4 (1 / 2) - 2| < 1e-10 :=
  ⟨(C2_log_zoom_interpolation 2 1 (by norm_num) 1 4).1 (by norm_num) (by norm_num),
   (C2_log_zoom_interpolation 2 1 (by norm_num) 1 4).2.2⟩

/-- C5: the Gaussian density is strictly positive and at most 1, equals 1
at the plane origin, equals `exp (-0.5)` (within 1e-10, in fact exactly)
at squared radius `sigma²`, and strictly decreases as the squared radius
grows. -/
theorem C5_gaussian_density_props (cx cy : ℝ) :
    (0 < gaussianDensity cx cy ∧ gaussianDensity cx cy ≤ 1) ∧
    gaussianDensity 0 0 = 1 ∧
    (cx * cx + cy * cy = sigma * sigma →
      |gaussianDensity cx cy - Real.exp (-0.5)| < 1e-10) ∧
    (∀ dx dy : ℝ, cx * cx + cy * cy < dx * dx + dy * dy →
      gaussianDensity dx dy < gaussianDensity cx cy) := by
  have hden : (2 * sigma * sigma : ℝ) = 1 / 2 := by norm_num [sigma]
  have hexp : ∀ u v : ℝ, -(u * u + v * v) / (2 * sigma * sigma) =
      -2 * (u * u + v * v) := fun u v => by rw [hden]; ring
  refine ⟨⟨Real.exp_pos _, ?_⟩, ?_, fun hr => ?_, fun dx dy hlt => ?_⟩
  · rw [gaussianDensity, hexp]
    calc Real.exp (-2 * (cx * cx + cy * cy)) ≤ Real.exp 0 :=
          Real.exp_le_exp.mpr (by nlinarith [mul_self_nonneg cx, mul_self_nonneg cy])
      _ = 1 := Real.exp_zero
  · rw [gaussianDensity]
    norm_num
  · rw [gaussianDensity, hr,
      show -(sigma * sigma) / (2 * sigma * sigma) = (-0.5 : ℝ) by norm_num [sigma]]
    norm_num
  · rw [gaussianDensity, gaussianDensity, hexp, hexp]
    exact Real.exp_lt_exp.mpr (by linarith)

/-- C5 (witness): the point (1/2, 0) at radial distance `sigma` from the
origin. -/
theorem C5_witness :
    0 < gaussianDensity (1 / 2) 0 ∧
    |gaussianDensity (1 / 2) 0 - Real.exp (-0.5)| < 1e-10 :=
  ⟨((C5_gaussian_density_props (1 / 2) 0).1).1,
   (C5_gaussian_density_props (1 / 2) 0).2.2.1 (by norm_num [sigma])⟩

/-- C7: after the encoder step of `generate_video`, frames are all kept
and the failure message is printed when the encoder reports failure; the
frame files are removed exactly when the encoder reports success (and
also kept when the encoder could not be launched). -/
theorem C7_frames_cleanup_policy (total : ℕ) (st : EncodeStatus) :
    (framesAfterEncode total (List.range total) (.exited false) = List.range total ∧
      encodeErrorReported (.exited false) = true) ∧
    (st ≠ .exited true →
      framesAfterEncode total (List.range total) st = List.range total) ∧
    framesAfterEncode total (List.range total) (.exited true) = [] := by
  refine ⟨⟨rfl, rfl⟩, fun hst => ?_, ?_⟩
  · cases st with
    | launchFailed => rfl
    | exited b =>
      cases b with
      | false => rfl
      | true => exact absurd rfl hst
  · show removeFrames total (List.range total) = []
    exact foldl_erase_self _

/-- C7 (witness): a three-frame sequence whose encoder could not launch. -/
theorem C7_witness :
    (framesAfterEncode 3 (List.range 3) (.exited false) = List.range 3 ∧
      encodeErrorReported (.exited false) = true) ∧
    framesAfterEncode 3 (List.range 3) .launchFailed = List.range 3 ∧
    framesAfterEncode 3 (List.range 3) (.exited true) = [] :=
  ⟨(C7_frames_cleanup_policy 3 .launchFailed).1,
   (C7_frames_cleanup_policy 3 .launchFailed).2.1 (by decide),
   (C7_frames_cleanup_policy 3 .launchFailed).2.2⟩

/-- C8: for max_iterations ≥ 1 the escape-time count is at least 1 (the
loop body runs at least once since `|z₀|² = 0 ≤ 4`), so the `0 => black`
arm of the color `match` is unreachable and no pixel of a real render
(bands ≥ 1) is colored black by it. -/
theorem C8_zero_branch_unreachable (cx cy : ℚ) (max_iterations bands : ℕ)
    (hmax : 1 ≤ max_iterations) (hbands : 1 ≤ bands) :
    1 ≤ calc_mandelbrot cx cy max_iterations ∧
    mandelbrotColor (calc_mandelbrot cx cy max_iterations) bands ≠ black := by
  have h1 : 1 ≤ calc_mandelbrot cx cy max_iterations := by
    obtain ⟨m, rfl⟩ : ∃ m, max_iterations = m + 1 := ⟨max_iterations - 1, by omega⟩
    rw [calc_mandelbrot, calcGo, if_pos (by norm_num)]
    simpa using calcGo_ge cx cy m _ _ (0 + 1)
  refine ⟨h1, ?_⟩
  rw [mandelbrotColor, if_neg (by omega)]
  exact hsv_full_ne_black _

/-- C8 (witness): the origin with max_iterations = 1, bands = 8. -/
theorem C8_witness :
    1 ≤ calc_mandelbrot 0 0 1 ∧ mandelbrotColor (calc_mandelbrot 0 0 1) 8 ≠ black :=
  C8_zero_branch_unreachable 0 0 1 8 (by norm_num) (by norm_num)

end Mathillu
